import Mathlib

/-
Shallow embedding of the metrics collector in src/src/vplc_collector/main.go
(package main of the s7-1500v-crb-metrics-visualizer repository).

Modelling conventions:
* Go `float64` values are modelled as rationals (ℚ).  Every concrete value
  appearing in the claims (bucket bounds such as 1.0, 5.0, the 1e9 sentinel,
  and small counter readings) is exactly representable in binary floating
  point, and all operations involved (comparison, addition of small values)
  are exact there, so the rational model is faithful on the inputs at stake.
* Go maps are modelled as association lists (`List (k × v)`), with
  `List.lookup` for reads (first binding wins, so insertion is modelled by
  consing) and `Option.getD 0` for Go's zero-value-on-missing-key reads.
* `map[string]interface{}` documents obtained from `json.Unmarshal` are
  modelled by the inductive type `GoVal` below, which also covers the
  dynamic types (`int`, `int64`, `json.Number`) inspected by
  `getNestedValue`'s type switch.
* Prometheus counter vectors are modelled as total functions from the label
  value to ℚ: a counter that has never been touched reads as 0, matching a
  freshly created prometheus counter, and `Add` is modelled by pointwise
  `Function.update`.
-/

namespace VplcCollector

/-! ## Bucket-Label Codec: `parseBucketUpperBoundMs` (main.go lines 129-141)

The Go helper matches the regular expression `(\d+(\.\d+)?)(\+)?ms$` against
the bucket label.  Because the pattern is anchored at the end of the string
and the characters allowed in the numeric token (digits and one dot) are
disjoint from `-`, `+`, `m`, `s`, the leftmost match of the pattern is:
strip the trailing `ms`; if the remaining core ends in `+`, the match exists
iff some suffix of the rest is a token `\d+(\.\d+)?`, and capture group 3 is
`+` (the function then returns 1e9); otherwise the captured numeric token is
the longest suffix of the core that is a full token `\d+(\.\d+)?` (a longer
suffix means an earlier, more leftmost, starting position).  If no such
alignment exists the regexp does not match and the function returns 0. -/

/-- Does the character list form one full numeric token `\d+(\.\d+)?`:
a nonempty run of digits, optionally followed by a dot and a nonempty run
of digits. -/
def fracPart : List Char → Bool
  | [] => true
  | d :: fs => d = '.' && !fs.isEmpty && fs.all (·.isDigit)

def validTok (cs : List Char) : Bool :=
  !(cs.takeWhile (·.isDigit)).isEmpty && fracPart (cs.dropWhile (·.isDigit))

/-- Numeric value of a token `\d+(\.\d+)?`, exactly as `strconv.ParseFloat`
reads it (the values relevant to this codebase are exactly representable, so
the rational value agrees with the parsed float). -/
def digitsToNat (ds : List Char) : ℕ :=
  ds.foldl (fun n c => 10 * n + (c.toNat - '0'.toNat)) 0

def tokVal (cs : List Char) : ℚ :=
  let fs := (cs.dropWhile (·.isDigit)).tail
  (digitsToNat (cs.takeWhile (·.isDigit)) : ℚ) + (digitsToNat fs : ℚ) / (10 : ℚ) ^ fs.length

/-- Longest suffix of `cs` that is a full numeric token (the leftmost
starting position at which the regexp's capture group 1 can match). -/
def longestTokSuffix : List Char → Option (List Char)
  | [] => none
  | c :: rest => if validTok (c :: rest) then some (c :: rest) else longestTokSuffix rest

/-- The `1e9` sentinel returned for open-ended `+` buckets. -/
def sentinelBucketBound : ℚ := 10 ^ 9

/-- Core of `parseBucketUpperBoundMs`, working on the reversed character
list (the regexp is anchored with `ms$`). -/
def parseRev : List Char → ℚ
  | [] => 0
  | [_] => 0
  | s :: m :: revCore =>
    if s = 's' ∧ m = 'm' then
      if revCore.head? = some '+' then
        if (longestTokSuffix revCore.tail.reverse).isSome then sentinelBucketBound else 0
      else
        match longestTokSuffix revCore.reverse with
        | some t => tokVal t
        | none => 0
    else 0

/-- Model of `parseBucketUpperBoundMs` (main.go lines 129-141). -/
def parseBucketUpperBoundMs (s : String) : ℚ :=
  parseRev s.data.reverse

/-- Does the regexp `(\d+(\.\d+)?)(\+)?ms$` match the label at all
(mirrors the branch structure of `parseRev`)? -/
def hasMatchRev : List Char → Bool
  | [] => false
  | [_] => false
  | c :: m :: revCore =>
    if c = 's' ∧ m = 'm' then
      if revCore.head? = some '+' then (longestTokSuffix revCore.tail.reverse).isSome
      else (longestTokSuffix revCore.reverse).isSome
    else false

def bucketLabelHasMatch (s : String) : Bool :=
  hasMatchRev s.data.reverse

/-! ## Generic nested documents and `getNestedValue` (main.go lines 144-175)

`GoVal` models a Go `interface{}` holding a JSON-like document, with the
dynamic types that `getNestedValue`'s type switch distinguishes.  A
`json.Number` is modelled together with the result of its `Float64()`
conversion (`none` when the conversion errors). -/

inductive GoVal where
  | vFloat : ℚ → GoVal
  | vInt : ℤ → GoVal
  | vInt64 : ℤ → GoVal
  | vNum : Option ℚ → GoVal
  | vStr : String → GoVal
  | vBool : Bool → GoVal
  | vNull : GoVal
  | vArr : List GoVal → GoVal
  | vMap : List (String × GoVal) → GoVal

/-- The type switch at the last path segment: `float64`, `int`, `int64`
yield the value, a `json.Number` yields its `Float64()` result when that
conversion succeeds, everything else falls through to `(0, false)`. -/
def coerceNum : GoVal → Option ℚ
  | .vFloat q => some q
  | .vInt n => some (n : ℚ)
  | .vInt64 n => some (n : ℚ)
  | .vNum f => f
  | _ => none

/-- Model of `strings.Split(path, "/")`: splitting an empty string yields
`[""]`, exactly as in Go. -/
def splitSlash : List Char → List (List Char)
  | [] => [[]]
  | c :: rest =>
    match splitSlash rest with
    | [] => [[]]
    | g :: gs => if c = '/' then [] :: g :: gs else (c :: g) :: gs

def splitPath (path : String) : List String :=
  (splitSlash path.data).map (fun g => String.mk g)

/-- The loop body of `getNestedValue`: at every segment the current value
must be a map and the segment must be present; at the last segment the
found value is numerically coerced.  An empty segment list corresponds to
the function's final `return 0, false` (unreachable through `splitPath`). -/
def getNestedValueParts : GoVal → List String → Option ℚ
  | _, [] => none
  | current, part :: rest =>
    match current with
    | .vMap m =>
      match m.lookup part with
      | none => none
      | some v => if rest.isEmpty then coerceNum v else getNestedValueParts v rest
    | _ => none

/-- Model of `getNestedValue` (main.go lines 144-175); `none` is Go's
`(0, false)`. -/
def getNestedValue (data : List (String × GoVal)) (path : String) : Option ℚ :=
  getNestedValueParts (.vMap data) (splitPath path)

/-! ## Metric descriptors and the scalar update path (main.go lines 48-72
and 185-212) -/

inductive MetricKind where
  | counter : MetricKind
  | gauge : MetricKind
deriving DecidableEq

structure MetricDescEntry where
  jsonName : String
  promName : String
  help : String
  kind : MetricKind

/-- The `crbMetricDescs` table (main.go lines 63-72). -/
def crbMetricDescs : List MetricDescEntry :=
  [⟨"writeSuccesses", "crb_successful_cycle_count", "Total number of successful cycles", .counter⟩,
   ⟨"writeAttempts", "crb_total_cycle_count", "Total number of cycles", .counter⟩,
   ⟨"cycleDelay/totalNs", "crb_sum_cycle_extension_duration", "Sum of cycle extension durations", .counter⟩,
   ⟨"cycleDelay/minNs", "crb_min_cycle_extension_duration", "Minimum cycle extension duration", .gauge⟩,
   ⟨"cycleDelay/maxNs", "crb_max_cycle_extension_duration", "Maximum cycle extension duration", .gauge⟩,
   ⟨"writeDuration/minNs", "crb_min_write_duration", "Minimum write duration", .gauge⟩,
   ⟨"writeDuration/maxNs", "crb_max_write_duration", "Maximum write duration", .gauge⟩,
   ⟨"writeDuration/totalNs", "crb_sum_write_duration", "Sum of write durations", .counter⟩]

/-- The body of the counter branch of `updateCRBMetrics` (main.go lines
198-206) for one key: `prevRaw = none` models the key being absent from
`previousCounterValues` (a Go map read of a missing key yields the zero
value 0); the result is the new exported value and the new stored raw
value.  The `delta > 0` guard is the only path that changes the exported
counter. -/
def counterStep (exported : ℚ) (prevRaw : Option ℚ) (v : ℚ) : ℚ × ℚ :=
  let prevValue := prevRaw.getD 0
  let delta := v - prevValue
  (if 0 < delta then exported + delta else exported, v)

/-- The mutable scalar-metric state: exported counter values and gauge
values keyed by (prometheus name, instance name), and the
`previousCounterValues` baselines (the nested Go map flattened to pairs;
the `!exists` inner-map initialisation in the source does not change what
a lookup observes). -/
structure MetricsState where
  exported : String × String → ℚ
  prevRaw : List ((String × String) × ℚ)
  gauges : String × String → ℚ

def initMetrics : MetricsState := ⟨fun _ => 0, [], fun _ => 0⟩

/-- One iteration of the descriptor loop of `updateCRBMetrics`. -/
def applyDesc (inst : String) (perf : List (String × GoVal)) (st : MetricsState)
    (d : MetricDescEntry) : MetricsState :=
  match getNestedValue perf d.jsonName with
  | none => st
  | some v =>
    match d.kind with
    | .counter =>
      let key := (d.promName, inst)
      let r := counterStep (st.exported key) (st.prevRaw.lookup key) v
      { st with
        exported := Function.update st.exported key r.1
        prevRaw := (key, r.2) :: st.prevRaw }
    | .gauge => { st with gauges := Function.update st.gauges (d.promName, inst) v }

/-- Model of `updateCRBMetrics` (main.go lines 185-212): the whole update
is skipped (state unchanged) unless the document holds a map under
`performanceMetrics`. -/
def updateCRBMetrics (st : MetricsState) (data : List (String × GoVal)) (inst : String) :
    MetricsState :=
  match data.lookup "performanceMetrics" with
  | some (.vMap perf) => crbMetricDescs.foldl (applyDesc inst perf) st
  | _ => st

/-- The per-key evolution of (exported counter value, stored raw baseline)
over a sequence of raw readings delivered for one (metric, instance) key:
the initial exported value is 0 (fresh prometheus counter) and the initial
baseline is absent. -/
def counterTrace (rs : List ℚ) : ℚ × Option ℚ :=
  rs.foldl (fun acc r => let p := counterStep acc.1 acc.2 r; (p.1, some p.2)) (0, none)

/-- Sum of the positive deltas of a reading sequence relative to a given
previous reading. -/
def posDeltaSum : ℚ → List ℚ → ℚ
  | _, [] => 0
  | prev, r :: rest => max 0 (r - prev) + posDeltaSum r rest

/-- The total claimed by the specification: the first observation
contributes 0 and only subsequent readings contribute their positive
deltas (`Σ max(0, r[i] - r[i-1])` for `i ≥ 1`).  This definition follows
the specification's words and is compared against `counterTrace`, which
follows the code. -/
def specCounterTotal : List ℚ → ℚ
  | [] => 0
  | r0 :: rest => posDeltaSum r0 rest

/-! ## Histogram update path (main.go lines 42-46, 103-126, 178-183 and
214-275) -/

/-- The JSON shape of `/retain/cyclic-backup/histogram` (main.go lines
42-46), with the two bucket maps as association lists. -/
structure Histogram where
  timestampNs : ℤ
  cycleExtensionDurationHistogram : List (String × ℚ)
  writeDurationHistogram : List (String × ℚ)

/-- State for one histogram kind and one instance: the exported bucket
counter per upper bound, and the stored previous cumulative value per
upper bound (the slice of `prevWriteBuckets` / `prevCycleBuckets` whose
keys start with this instance; buckets are keyed by the parsed bound,
which determines the `le` label string injectively). -/
structure HistKindState where
  exported : ℚ → ℚ
  prevCum : List (ℚ × ℚ)

def initHistKind : HistKindState := ⟨fun _ => 0, []⟩

/-- Model of `getPreviousBucketValue` (main.go lines 258-266) for one kind
slice: a missing key reads as 0. -/
def getPreviousBucketValue (m : List (ℚ × ℚ)) (b : ℚ) : ℚ :=
  (m.lookup b).getD 0

/-- The bucket keys of a response, sorted by ascending parsed upper bound
(the `sort.Slice` calls at main.go lines 222-224 and 242-244; Go map
iteration order is unspecified and `sort.Slice` is unstable, so this model
fixes one admissible order — all claims proved below are either about
responses with pairwise distinct bounds, where every admissible order
agrees, or are insensitive to the order). -/
def sortedLabels (resp : List (String × ℚ)) : List String :=
  List.insertionSort
    (fun a b => parseBucketUpperBoundMs a < parseBucketUpperBoundMs b)
    (resp.map Prod.fst)

/-- One iteration of the bucket loop (main.go lines 226-235 / 246-255):
accumulate the running sum, compute the delta against the stored previous
cumulative value for this bound, add it to the exported counter only when
positive, and store the new cumulative value. -/
def histStep (resp : List (String × ℚ)) (acc : HistKindState × ℚ) (k : String) :
    HistKindState × ℚ :=
  let cum := acc.2 + ((resp.lookup k).getD 0)
  let b := parseBucketUpperBoundMs k
  let st := acc.1
  let delta := cum - getPreviousBucketValue st.prevCum b
  (⟨if 0 < delta then Function.update st.exported b (st.exported b + delta) else st.exported,
    (b, cum) :: st.prevCum⟩, cum)

/-- The full bucket loop for one histogram kind. -/
def updateHistKind (st : HistKindState) (resp : List (String × ℚ)) : HistKindState :=
  ((sortedLabels resp).foldl (histStep resp) (st, 0)).1

/-- The per-instance histogram state for both kinds. -/
structure HistState where
  write : HistKindState
  cycle : HistKindState

def initHist : HistState := ⟨initHistKind, initHistKind⟩

/-- Model of `updateHistograms` (main.go lines 214-256): the write-duration
buckets are processed first, then the cycle-extension buckets, each through
the same loop. -/
def updateHistograms (st : HistState) (h : Histogram) : HistState :=
  ⟨updateHistKind st.write h.writeDurationHistogram,
   updateHistKind st.cycle h.cycleExtensionDurationHistogram⟩

/-- The derived (upper bound, cumulative count) sequence of a response, in
processing order. -/
def cumSeqAux (resp : List (String × ℚ)) (cum : ℚ) : List String → List (ℚ × ℚ)
  | [] => []
  | k :: ks =>
    let c := cum + ((resp.lookup k).getD 0)
    (parseBucketUpperBoundMs k, c) :: cumSeqAux resp c ks

def cumSeq (resp : List (String × ℚ)) : List (ℚ × ℚ) :=
  cumSeqAux resp 0 (sortedLabels resp)

/-! ## One collection cycle of an Instance Collector (main.go lines
382-435)

The network is abstracted by a `CycleEnv` recording, for this cycle, the
outcome of the authentication call and of the two fetches.  `FetchOutcome`
distinguishes a failed request (transport error or non-200 status) from a
successful one whose body either parses (`ok (some d)`) or does not
(`ok none`). -/

inductive FetchOutcome (α : Type) where
  | fail : FetchOutcome α
  | ok : Option α → FetchOutcome α

structure CycleEnv where
  authResult : Option String
  histFetch : FetchOutcome Histogram
  crbFetch : FetchOutcome (List (String × GoVal))

structure CollectorState where
  authenticated : Bool
  token : String
  metrics : MetricsState
  hist : HistState

def initCollector : CollectorState := ⟨false, "", initMetrics, initHist⟩

def applyHistDoc (st : CollectorState) : Option Histogram → CollectorState
  | none => st
  | some h => { st with hist := updateHistograms st.hist h }

def applyCrbDoc (inst : String) (st : CollectorState) : Option (List (String × GoVal)) →
    CollectorState
  | none => st
  | some doc => { st with metrics := updateCRBMetrics st.metrics doc inst }

/-- The two fetches of a cycle (main.go lines 404-434): a failed fetch
drops the session (`authenticated = false`, `token = ""`) and abandons the
remainder of the cycle; a fetched body that does not parse only skips that
document's update. -/
def runFetches (env : CycleEnv) (inst : String) (st : CollectorState) : CollectorState :=
  match env.histFetch with
  | .fail => { st with authenticated := false, token := "" }
  | .ok histDoc =>
    let st1 := applyHistDoc st histDoc
    match env.crbFetch with
    | .fail => { st1 with authenticated := false, token := "" }
    | .ok crbDoc => applyCrbDoc inst st1 crbDoc

/-- One whole cycle body (main.go lines 392-434): authenticate first when
the session is missing (a failed authentication only clears the flag and
skips the cycle), then fetch. -/
def runCycle (env : CycleEnv) (inst : String) (st : CollectorState) : CollectorState :=
  if st.authenticated = false ∨ st.token = "" then
    match env.authResult with
    | none => { st with authenticated := false }
    | some tok => runFetches env inst { st with authenticated := true, token := tok }
  else runFetches env inst st

/-! ## The per-instance tick loop and overlap guard (main.go lines 366-436)

The loop is modelled as a labelled transition system whose atomic events
are the two atomic operations of the source: the tick's
`CompareAndSwapInt32(&running, 0, 1)` and the deferred
`StoreInt32(&running, 0)` at the end of a cycle goroutine.  `inflight`
counts cycle goroutines that have been started and have not yet finished;
the collector state is transformed by `runCycle` when a cycle finishes. -/

structure LoopState where
  running : Bool
  inflight : ℕ
  coll : CollectorState

/-- What a timer tick does: when `running` is set the CAS fails and the
tick is dropped (no authentication, no fetch, no state change, nothing
queued); otherwise the CAS succeeds and a cycle goroutine starts. -/
def onTick (s : LoopState) : LoopState :=
  if s.running then s else { s with running := true, inflight := s.inflight + 1 }

/-- A cycle goroutine finishing: its effects on the collector state are
applied and the deferred store resets `running`. -/
def onFinish (env : CycleEnv) (inst : String) (s : LoopState) : LoopState :=
  ⟨false, s.inflight - 1, runCycle env inst s.coll⟩

def LoopStep (inst : String) (s s' : LoopState) : Prop :=
  s' = onTick s ∨ ∃ env, 0 < s.inflight ∧ s' = onFinish env inst s

def loopInit (c : CollectorState) : LoopState := ⟨false, 0, c⟩

def LoopReachable (inst : String) (c : CollectorState) (s : LoopState) : Prop :=
  Relation.ReflTransGen (LoopStep inst) (loopInit c) s

/-- The scalar-metrics document of a cycle is malformed: the fetch
succeeded but the body either does not parse as JSON (`ok none`) or parses
to a document with no map under `performanceMetrics`. -/
def crbFetchMalformed : FetchOutcome (List (String × GoVal)) → Prop
  | .fail => False
  | .ok none => True
  | .ok (some doc) => ∀ perf, doc.lookup "performanceMetrics" ≠ some (.vMap perf)

end VplcCollector

namespace VplcCollector

lemma validTok_chars {cs : List Char} (h : validTok cs = true) :
    ∀ c ∈ cs, c.isDigit = true ∨ c = '.' := by
  intro c hc
  rw [← List.takeWhile_append_dropWhile (·.isDigit) cs] at hc
  rcases List.mem_append.1 hc with h1 | h2
  · exact Or.inl (List.mem_takeWhile_imp h1)
  · unfold validTok at h
    simp only [Bool.and_eq_true] at h
    obtain ⟨-, hf⟩ := h
    revert hf h2
    cases cs.dropWhile (·.isDigit) with
    | nil => intro h2 hf; cases h2
    | cons d fs =>
      intro h2 hf
      simp only [fracPart, Bool.and_eq_true, decide_eq_true_eq, List.all_eq_true] at hf
      rcases List.mem_cons.mp h2 with rfl | hmem
      · exact Or.inr hf.1.1
      · exact Or.inl (hf.2 c hmem)

lemma validTok_ne_nil {cs : List Char} (h : validTok cs = true) : cs ≠ [] := by
  intro he; subst he; simp [validTok] at h

lemma validTok_dash_not_mem {cs : List Char} (h : validTok cs = true) : '-' ∉ cs := by
  intro hmem
  rcases validTok_chars h '-' hmem with hd | hd <;> simp at hd

lemma validTok_plus_not_mem {cs : List Char} (h : validTok cs = true) : '+' ∉ cs := by
  intro hmem
  rcases validTok_chars h '+' hmem with hd | hd <;> simp at hd

lemma longestTokSuffix_self {t : List Char} (h : validTok t = true) :
    longestTokSuffix t = some t := by
  cases t with
  | nil => exact absurd rfl (validTok_ne_nil h)
  | cons c rest => simp [longestTokSuffix, h]

lemma longestTokSuffix_dash {t : List Char} (a : List Char) (h : validTok t = true) :
    longestTokSuffix (a ++ '-' :: t) = some t := by
  induction a with
  | nil =>
    have hv : validTok ('-' :: t) = false := by
      cases hvt : validTok ('-' :: t) with
      | false => rfl
      | true => exact absurd (List.mem_cons_self '-' t) (validTok_dash_not_mem hvt)
    rw [List.nil_append, longestTokSuffix, if_neg (by simp [hv])]
    exact longestTokSuffix_self h
  | cons x a' ih =>
    have hv : validTok (x :: (a' ++ '-' :: t)) = false := by
      cases hvt : validTok (x :: (a' ++ '-' :: t)) with
      | false => rfl
      | true =>
        have hmem : '-' ∈ x :: (a' ++ '-' :: t) := by simp
        exact absurd hmem (validTok_dash_not_mem hvt)
    rw [List.cons_append, longestTokSuffix, if_neg (by simp [hv])]
    exact ih

lemma longestTokSuffix_isSome {t : List Char} (a : List Char) (h : validTok t = true) :
    (longestTokSuffix (a ++ t)).isSome = true := by
  induction a with
  | nil => simp [longestTokSuffix_self h]
  | cons x a' ih =>
    rw [List.cons_append]
    by_cases hv : validTok (x :: (a' ++ t)) = true
    · simp [longestTokSuffix, hv]
    · rw [longestTokSuffix, if_neg hv]
      exact ih

lemma head_ne_plus_of_reverse_append {t rest : List Char} (hne : t ≠ [])
    (hmem : '+' ∉ t) : ¬ (t.reverse ++ rest).head? = some '+' := by
  cases ht : t.reverse with
  | nil =>
    exact absurd (by simpa using congrArg List.reverse ht) hne
  | cons c cs =>
    have hc : c ∈ t := List.mem_reverse.mp (ht ▸ List.mem_cons_self c cs)
    simp only [ht, List.cons_append, List.head?_cons, Option.some.injEq]
    intro hcp
    exact hmem (hcp ▸ hc)

lemma parse_range_label {t : List Char} (a : List Char) (h : validTok t = true) :
    parseBucketUpperBoundMs (String.mk (a ++ '-' :: t ++ ['m', 's'])) = tokVal t := by
  have hne := validTok_ne_nil h
  have hplus := validTok_plus_not_mem h
  show parseRev (String.mk (a ++ '-' :: t ++ ['m', 's'])).data.reverse = tokVal t
  have hrev : (String.mk (a ++ '-' :: t ++ ['m', 's'])).data.reverse =
      's' :: 'm' :: (t.reverse ++ '-' :: a.reverse) := by
    show (a ++ '-' :: t ++ ['m', 's']).reverse = _
    simp
  rw [hrev]
  simp only [parseRev]
  rw [if_neg (head_ne_plus_of_reverse_append hne hplus)]
  have hback : (t.reverse ++ '-' :: a.reverse).reverse = a ++ '-' :: t := by simp
  rw [hback, longestTokSuffix_dash a h]
  simp

lemma parse_plus_label {t : List Char} (a : List Char) (h : validTok t = true) :
    parseBucketUpperBoundMs (String.mk (a ++ t ++ ['+', 'm', 's'])) = sentinelBucketBound := by
  show parseRev (String.mk (a ++ t ++ ['+', 'm', 's'])).data.reverse = sentinelBucketBound
  have hrev : (String.mk (a ++ t ++ ['+', 'm', 's'])).data.reverse =
      's' :: 'm' :: ('+' :: (t.reverse ++ a.reverse)) := by
    show (a ++ t ++ ['+', 'm', 's']).reverse = _
    simp
  rw [hrev]
  simp only [parseRev]
  rw [if_pos (show ('+' :: (t.reverse ++ a.reverse)).head? = some '+' from rfl)]
  have hback : ('+' :: (t.reverse ++ a.reverse)).tail.reverse = a ++ t := by simp
  rw [hback]
  simp [longestTokSuffix_isSome a h]

lemma parse_eq_zero_of_not_ms {s : String} (h : ¬ ['m', 's'] <:+ s.data) :
    parseBucketUpperBoundMs s = 0 := by
  show parseRev s.data.reverse = 0
  cases hrev : s.data.reverse with
  | nil => rfl
  | cons c rest =>
    cases rest with
    | nil => rfl
    | cons m rest2 =>
      by_cases hcm : c = 's' ∧ m = 'm'
      · exfalso
        obtain ⟨rfl, rfl⟩ := hcm
        apply h
        have hdata : s.data = ('s' :: 'm' :: rest2).reverse := by
          rw [← hrev, List.reverse_reverse]
        have hr : ('s' :: 'm' :: rest2).reverse = rest2.reverse ++ ['m', 's'] := by simp
        rw [hdata, hr]
        exact List.suffix_append rest2.reverse ['m', 's']
      · simp only [parseRev]
        rw [if_neg hcm]

lemma parse_eq_zero_of_no_match {s : String} (h : bucketLabelHasMatch s = false) :
    parseBucketUpperBoundMs s = 0 := by
  show parseRev s.data.reverse = 0
  unfold bucketLabelHasMatch at h
  cases hrev : s.data.reverse with
  | nil => rfl
  | cons c rest =>
    rw [hrev] at h
    cases rest with
    | nil => rfl
    | cons m rest2 =>
      simp only [hasMatchRev] at h
      simp only [parseRev]
      by_cases hcm : c = 's' ∧ m = 'm'
      · rw [if_pos hcm] at h
        rw [if_pos hcm]
        by_cases hplus : rest2.head? = some '+'
        · rw [if_pos hplus] at h
          rw [if_pos hplus, h]
          simp
        · rw [if_neg hplus] at h
          rw [if_neg hplus]
          rcases hnone : longestTokSuffix rest2.reverse with _ | t
          · rfl
          · rw [hnone] at h; simp at h
      · rw [if_neg hcm]

end VplcCollector

namespace VplcCollector

/-- Claim C5: `parseBucketUpperBoundMs` maps a range label to the trailing
numeric token immediately preceding the unit suffix (`"0.0-1.0ms"` parses
to 1.0, and in general a label `<prefix>-<token>ms` parses to the token's
value); a label ending in `+` plus the unit (`"20.0+ms"`, in general
`<token>+ms`) parses to the large finite sentinel 1e9, which every finite
boundary observed from the device (all far below 1e9) stays strictly
under; and a label the regexp does not match parses to 0. -/
theorem c5_parse_bucket_upper_bound :
    parseBucketUpperBoundMs "0.0-1.0ms" = 1 ∧
    parseBucketUpperBoundMs "20.0+ms" = sentinelBucketBound ∧
    sentinelBucketBound = 10 ^ 9 ∧
    (∀ a t : List Char, validTok t = true →
      parseBucketUpperBoundMs (String.mk (a ++ '-' :: t ++ ['m', 's'])) = tokVal t) ∧
    (∀ a t : List Char, validTok t = true →
      parseBucketUpperBoundMs (String.mk (a ++ t ++ ['+', 'm', 's'])) = sentinelBucketBound) ∧
    (∀ a t : List Char, validTok t = true → tokVal t < sentinelBucketBound →
      parseBucketUpperBoundMs (String.mk (a ++ '-' :: t ++ ['m', 's'])) < sentinelBucketBound) ∧
    (∀ s : String, bucketLabelHasMatch s = false → parseBucketUpperBoundMs s = 0) := by
  refine ⟨?_, ?_, rfl, ?_, ?_, ?_, ?_⟩
  · simp +decide [parseBucketUpperBoundMs, parseRev, longestTokSuffix, validTok, fracPart,
      tokVal, digitsToNat, List.dropWhile, List.takeWhile]
  · simp +decide [parseBucketUpperBoundMs, parseRev, longestTokSuffix, validTok, fracPart,
      tokVal, digitsToNat, List.dropWhile, List.takeWhile]
  · exact fun a t h => parse_range_label a h
  · exact fun a t h => parse_plus_label a h
  · intro a t h hlt
    rw [parse_range_label a h]
    exact hlt
  · exact fun s h => parse_eq_zero_of_no_match h

/-- Witness for C5 at concrete inputs: the token "30" is valid, the range
label "20-30ms" parses to the token value, the plus label "20.0+ms" built
from the token "20.0" parses to the sentinel, and the unmatched label
"xyz" parses to 0. -/
theorem c5_witness :
    validTok ['3', '0'] = true ∧
    parseBucketUpperBoundMs (String.mk (['2', '0'] ++ '-' :: ['3', '0'] ++ ['m', 's'])) =
      tokVal ['3', '0'] ∧
    parseBucketUpperBoundMs (String.mk ([] ++ ['2', '0', '.', '0'] ++ ['+', 'm', 's'])) =
      sentinelBucketBound ∧
    parseBucketUpperBoundMs "xyz" = 0 :=
  ⟨by decide,
   c5_parse_bucket_upper_bound.2.2.2.1 ['2', '0'] ['3', '0'] (by decide),
   c5_parse_bucket_upper_bound.2.2.2.2.1 [] ['2', '0', '.', '0'] (by decide),
   c5_parse_bucket_upper_bound.2.2.2.2.2.2 "xyz" (by decide)⟩

/-- Claim C9: the parse depends only on the trailing token of a label
ending in the literal unit "ms": a label that does not end in "ms" parses
to 0 (whatever unit it uses), and the lower bound of a range label is
ignored entirely ("5.0-1.0ms" parses to 1.0 exactly like "0.0-1.0ms";
in general the prefix before the dash is irrelevant). -/
theorem c9_parse_depends_on_trailing_token_only :
    (∀ s : String, ¬ ['m', 's'] <:+ s.data → parseBucketUpperBoundMs s = 0) ∧
    parseBucketUpperBoundMs "5.0-1.0ms" = parseBucketUpperBoundMs "0.0-1.0ms" ∧
    parseBucketUpperBoundMs "5.0-1.0ms" = 1 ∧
    (∀ a b t : List Char, validTok t = true →
      parseBucketUpperBoundMs (String.mk (a ++ '-' :: t ++ ['m', 's'])) =
        parseBucketUpperBoundMs (String.mk (b ++ '-' :: t ++ ['m', 's']))) := by
  refine ⟨fun s h => parse_eq_zero_of_not_ms h, ?_, ?_, ?_⟩
  · simp +decide [parseBucketUpperBoundMs, parseRev, longestTokSuffix, validTok, fracPart,
      tokVal, digitsToNat, List.dropWhile, List.takeWhile]
  · simp +decide [parseBucketUpperBoundMs, parseRev, longestTokSuffix, validTok, fracPart,
      tokVal, digitsToNat, List.dropWhile, List.takeWhile]
  · intro a b t h
    rw [parse_range_label a h, parse_range_label b h]

/-- Witness for C9 at concrete inputs: a label in unit "s" (not "ms")
parses to 0, and two range labels sharing the trailing token "1.0" but
with different lower bounds parse identically. -/
theorem c9_witness :
    parseBucketUpperBoundMs "0.0-1.0s" = 0 ∧
    parseBucketUpperBoundMs (String.mk (['5', '.', '0'] ++ '-' :: ['1', '.', '0'] ++ ['m', 's'])) =
      parseBucketUpperBoundMs (String.mk (['0', '.', '0'] ++ '-' :: ['1', '.', '0'] ++ ['m', 's'])) :=
  ⟨c9_parse_depends_on_trailing_token_only.1 "0.0-1.0s" (by decide),
   c9_parse_depends_on_trailing_token_only.2.2.2 ['5', '.', '0'] ['0', '.', '0'] ['1', '.', '0']
     (by decide)⟩

end VplcCollector

namespace VplcCollector

lemma counterStep_fst_nonneg_move (e : ℚ) (p : Option ℚ) (v : ℚ) :
    e ≤ (counterStep e p v).1 := by
  unfold counterStep
  dsimp only
  split
  · linarith
  · exact le_refl e

lemma counterTrace_from (e p : ℚ) (vs : List ℚ) :
    (vs.foldl (fun acc r => let q := counterStep acc.1 acc.2 r; (q.1, some q.2)) (e, some p)).1 =
      e + posDeltaSum p vs := by
  induction vs generalizing e p with
  | nil => simp [posDeltaSum]
  | cons v rest ih =>
    simp only [List.foldl_cons]
    rw [show (let q := counterStep e (some p) v; ((q.1 : ℚ), some q.2)) =
        ((if 0 < v - p then e + (v - p) else e, some v) : ℚ × Option ℚ) from rfl]
    rw [ih]
    simp only [posDeltaSum]
    by_cases hd : 0 < v - p
    · rw [if_pos hd, max_eq_right (le_of_lt hd)]
      ring
    · rw [if_neg hd, max_eq_left (by linarith [not_lt.mp hd])]
      ring

/-- Claim C1 counterexample: for the single-reading sequence `[5]` the code
exports 5 (the missing baseline reads as 0, so the first observation adds
its full raw value), while the claimed formula `Σ_{i≥1} max(0, r[i]-r[i-1])`
gives 0: the exported value does jump to `r0`. -/
theorem c1_counterexample :
    (counterTrace [5]).1 = 5 ∧ specCounterTotal [5] = 0 ∧
      (counterTrace [5]).1 ≠ specCounterTotal [5] := by
  refine ⟨?_, rfl, ?_⟩ <;>
    norm_num [counterTrace, counterStep, specCounterTotal, posDeltaSum]

/-- Claim C1 (amended): the stored baseline for a key starts out absent and
a missing-key read yields 0, so the first observation contributes
`max(0, r0)` — not 0 — and after the whole sequence the exported value
equals `Σ_{i≥0} max(0, r[i] - r[i-1])` with `r[-1] = 0`, i.e.
`max(0, r0) + Σ_{i≥1} max(0, r[i] - r[i-1])`. -/
theorem c1_counter_cumulative_amended (rs : List ℚ) :
    (counterTrace rs).1 = posDeltaSum 0 rs := by
  cases rs with
  | nil => rfl
  | cons r rest =>
    unfold counterTrace
    simp only [List.foldl_cons]
    rw [show (let q := counterStep 0 none r; ((q.1 : ℚ), some q.2)) =
        ((if 0 < r - 0 then 0 + (r - 0) else 0, some r) : ℚ × Option ℚ) from rfl]
    have : ((if 0 < r - 0 then 0 + (r - 0) else 0 : ℚ), (some r : Option ℚ)) =
        (max 0 r, some r) := by
      by_cases hr : 0 < r
      · rw [if_pos (by linarith), max_eq_right (le_of_lt hr)]; ring_nf
      · rw [if_neg (by intro hc; exact hr (by linarith)), max_eq_left (not_lt.mp hr)]
    rw [this, counterTrace_from]
    simp only [posDeltaSum]
    ring_nf

end VplcCollector

namespace VplcCollector

lemma applyDesc_exported_mono (inst : String) (perf : List (String × GoVal))
    (st : MetricsState) (d : MetricDescEntry) (k : String × String) :
    st.exported k ≤ (applyDesc inst perf st d).exported k := by
  unfold applyDesc
  split
  · exact le_refl _
  · split
    · dsimp only
      by_cases hk : k = (d.promName, inst)
      · subst hk
        rw [Function.update_same]
        exact counterStep_fst_nonneg_move _ _ _
      · rw [Function.update_noteq hk]
    · exact le_refl _

lemma foldl_applyDesc_exported_mono (inst : String) (perf : List (String × GoVal))
    (ds : List MetricDescEntry) (st : MetricsState) (k : String × String) :
    st.exported k ≤ (ds.foldl (applyDesc inst perf) st).exported k := by
  induction ds generalizing st with
  | nil => exact le_refl _
  | cons d rest ih =>
    exact le_trans (applyDesc_exported_mono inst perf st d k) (ih (applyDesc inst perf st d))

/-- Claim C2: the exported counter value maintained by `updateCRBMetrics`
never decreases at any key; a step whose increment `rawValue - lastRaw` is
not positive leaves the exported value unchanged; the stored baseline is
updated to the new raw value in every case; and over any reading sequence
the exported value is non-decreasing from one reading to the next. -/
theorem c2_counter_nondecreasing :
    (∀ (st : MetricsState) (data : List (String × GoVal)) (inst : String)
       (k : String × String), st.exported k ≤ (updateCRBMetrics st data inst).exported k) ∧
    (∀ (e : ℚ) (p : Option ℚ) (v : ℚ), v - p.getD 0 ≤ 0 → (counterStep e p v).1 = e) ∧
    (∀ (e : ℚ) (p : Option ℚ) (v : ℚ), (counterStep e p v).2 = v) ∧
    (∀ (rs : List ℚ) (r : ℚ), (counterTrace rs).1 ≤ (counterTrace (rs ++ [r])).1) := by
  refine ⟨?_, ?_, ?_, ?_⟩
  · intro st data inst k
    unfold updateCRBMetrics
    split
    · exact foldl_applyDesc_exported_mono inst _ crbMetricDescs st k
    · exact le_refl _
  · intro e p v h
    unfold counterStep
    dsimp only
    rw [if_neg (by intro hc; linarith)]
  · intro e p v
    rfl
  · intro rs r
    unfold counterTrace
    rw [List.foldl_append]
    exact counterStep_fst_nonneg_move _ _ _

/-- Witness for C2 at concrete inputs: with stored baseline 5 and reading 4
the increment is negative, so the exported value 3 is unchanged while the
baseline becomes 4; and appending the reading 4 to the sequence [5] does
not decrease the exported value. -/
theorem c2_witness :
    ((4 : ℚ) - (some (5 : ℚ)).getD 0 ≤ 0 ∧ (counterStep 3 (some 5) 4).1 = 3) ∧
    (counterStep 3 (some 5) 4).2 = 4 ∧
    (counterTrace [5]).1 ≤ (counterTrace ([5] ++ [4])).1 :=
  ⟨⟨by norm_num, c2_counter_nondecreasing.2.1 3 (some 5) 4 (by norm_num)⟩,
   c2_counter_nondecreasing.2.2.1 3 (some 5) 4,
   c2_counter_nondecreasing.2.2.2 [5] 4⟩

end VplcCollector

namespace VplcCollector

/-- Claim C7 counterexample: the claim says an empty path returns absent,
but `strings.Split("", "/")` yields `[""]`, so the empty path denotes the
single segment `""`: on a document that maps the key `""` to the float 3,
`getNestedValue` returns the value 3, not absent. -/
theorem c7_counterexample :
    getNestedValue [("", GoVal.vFloat 3)] "" = some 3 ∧
    getNestedValue [("", GoVal.vFloat 3)] "" ≠ none := by
  refine ⟨rfl, ?_⟩
  intro h
  exact Option.noConfusion h

/-- Claim C7 (amended): `getNestedValue` walks the path and returns absent
whenever a segment is missing from the current map or the current value is
not a nested map (an empty segment list also returns absent, but an empty
path string denotes the single segment "", whose lookup can succeed — the
original claim's "the path is empty returns absent" clause fails there);
at the terminal segment only integer or floating-point representations
(including a convertible `json.Number`) produce a value, every other
representation is absent. -/
theorem c7_get_nested_value_amended :
    (∀ current : GoVal, getNestedValueParts current [] = none) ∧
    (∀ (m : List (String × GoVal)) (part : String) (rest : List String),
      m.lookup part = none → getNestedValueParts (.vMap m) (part :: rest) = none) ∧
    (∀ (current : GoVal) (part : String) (rest : List String),
      (∀ m, current ≠ .vMap m) → getNestedValueParts current (part :: rest) = none) ∧
    (∀ (m : List (String × GoVal)) (part : String) (v : GoVal),
      m.lookup part = some v → getNestedValueParts (.vMap m) [part] = coerceNum v) ∧
    ((∀ s, coerceNum (.vStr s) = none) ∧ (∀ b, coerceNum (.vBool b) = none) ∧
     coerceNum .vNull = none ∧ (∀ xs, coerceNum (.vArr xs) = none) ∧
     (∀ m, coerceNum (.vMap m) = none) ∧ coerceNum (.vNum none) = none) ∧
    ((∀ q, coerceNum (.vFloat q) = some q) ∧ (∀ n, coerceNum (.vInt n) = some (n : ℚ)) ∧
     (∀ n, coerceNum (.vInt64 n) = some (n : ℚ)) ∧
     (∀ q, coerceNum (.vNum (some q)) = some q)) ∧
    (∀ data : List (String × GoVal), getNestedValue data "" = getNestedValueParts (.vMap data) [""]) := by
  refine ⟨fun current => ?_, fun m part rest h => ?_, fun current part rest h => ?_,
    fun m part v h => ?_,
    ⟨fun s => rfl, fun b => rfl, rfl, fun xs => rfl, fun m => rfl, rfl⟩,
    ⟨fun q => rfl, fun n => rfl, fun n => rfl, fun q => rfl⟩,
    fun data => rfl⟩
  · cases current <;> rfl
  · simp [getNestedValueParts, h]
  · cases current with
    | vMap m => exact absurd rfl (h m)
    | vFloat q => rfl
    | vInt n => rfl
    | vInt64 n => rfl
    | vNum f => rfl
    | vStr s => rfl
    | vBool b => rfl
    | vNull => rfl
    | vArr xs => rfl
  · simp [getNestedValueParts, h]

/-- Witness for C7 at concrete inputs: a missing segment, a non-map
current value, and a non-numeric terminal value are all absent, while a
present numeric terminal under a one-segment path is returned. -/
theorem c7_witness :
    ([("a", GoVal.vFloat 1)].lookup "b" = none ∧
      getNestedValueParts (.vMap [("a", GoVal.vFloat 1)]) ["b", "c"] = none) ∧
    getNestedValueParts (.vStr "x") ["b"] = none ∧
    ([("a", GoVal.vStr "x")].lookup "a" = some (GoVal.vStr "x") ∧
      getNestedValueParts (.vMap [("a", GoVal.vStr "x")]) ["a"] = coerceNum (GoVal.vStr "x")) :=
  ⟨⟨rfl, c7_get_nested_value_amended.2.1 [("a", GoVal.vFloat 1)] "b" ["c"] rfl⟩,
   c7_get_nested_value_amended.2.2.1 (.vStr "x") "b" [] (fun m h => by cases h),
   ⟨rfl, c7_get_nested_value_amended.2.2.2.1 [("a", GoVal.vStr "x")] "a" (GoVal.vStr "x")
      rfl⟩⟩

end VplcCollector

namespace VplcCollector

lemma parse_01ms : parseBucketUpperBoundMs "0-1ms" = 1 := by
  simp +decide [parseBucketUpperBoundMs, parseRev, longestTokSuffix, validTok, fracPart,
    tokVal, digitsToNat, List.dropWhile, List.takeWhile]

lemma parse_12ms : parseBucketUpperBoundMs "1-2ms" = 2 := by
  simp +decide [parseBucketUpperBoundMs, parseRev, longestTokSuffix, validTok, fracPart,
    tokVal, digitsToNat, List.dropWhile, List.takeWhile]

lemma parse_15ms : parseBucketUpperBoundMs "1-5ms" = 5 := by
  simp +decide [parseBucketUpperBoundMs, parseRev, longestTokSuffix, validTok, fracPart,
    tokVal, digitsToNat, List.dropWhile, List.takeWhile]

lemma parse_5plus : parseBucketUpperBoundMs "5+ms" = sentinelBucketBound := by
  simp +decide [parseBucketUpperBoundMs, parseRev, longestTokSuffix, validTok, fracPart,
    tokVal, digitsToNat, List.dropWhile, List.takeWhile]

lemma histStep_exported_at (resp : List (String × ℚ)) (st : HistKindState) (cum : ℚ)
    (k : String) :
    ((histStep resp (st, cum) k).1).exported (parseBucketUpperBoundMs k) =
      st.exported (parseBucketUpperBoundMs k) +
        max 0 ((cum + ((resp.lookup k).getD 0)) -
          getPreviousBucketValue st.prevCum (parseBucketUpperBoundMs k)) := by
  unfold histStep
  dsimp only
  split
  · rw [Function.update_same, max_eq_right (by linarith)]
  · rw [max_eq_left (by linarith [not_lt.mp (by assumption)])]
    ring

lemma histStep_exported_frame (resp : List (String × ℚ)) (st : HistKindState) (cum : ℚ)
    (k : String) (b : ℚ) (hb : b ≠ parseBucketUpperBoundMs k) :
    ((histStep resp (st, cum) k).1).exported b = st.exported b := by
  unfold histStep
  dsimp only
  split
  · rw [Function.update_noteq hb]
  · rfl

lemma histStep_exported_mono (resp : List (String × ℚ)) (st : HistKindState) (cum : ℚ)
    (k : String) (b : ℚ) :
    st.exported b ≤ ((histStep resp (st, cum) k).1).exported b := by
  by_cases hb : b = parseBucketUpperBoundMs k
  · subst hb
    rw [histStep_exported_at]
    have := le_max_left (0 : ℚ) ((cum + ((resp.lookup k).getD 0)) -
      getPreviousBucketValue st.prevCum (parseBucketUpperBoundMs k))
    linarith
  · rw [histStep_exported_frame resp st cum k b hb]

lemma histStep_prev_at (resp : List (String × ℚ)) (st : HistKindState) (cum : ℚ) (k : String) :
    getPreviousBucketValue ((histStep resp (st, cum) k).1).prevCum (parseBucketUpperBoundMs k) =
      cum + ((resp.lookup k).getD 0) := by
  unfold histStep getPreviousBucketValue
  dsimp only
  simp [List.lookup_cons]

lemma histStep_prev_frame (resp : List (String × ℚ)) (st : HistKindState) (cum : ℚ)
    (k : String) (b : ℚ) (hb : b ≠ parseBucketUpperBoundMs k) :
    getPreviousBucketValue ((histStep resp (st, cum) k).1).prevCum b =
      getPreviousBucketValue st.prevCum b := by
  unfold histStep getPreviousBucketValue
  dsimp only
  have hbeq : (b == parseBucketUpperBoundMs k) = false := beq_false_of_ne hb
  simp [List.lookup_cons, hbeq]

lemma histStep_cum (resp : List (String × ℚ)) (st : HistKindState) (cum : ℚ) (k : String) :
    (histStep resp (st, cum) k).2 = cum + ((resp.lookup k).getD 0) := rfl

lemma foldl_histStep_exported_mono (resp : List (String × ℚ)) (ks : List String)
    (st : HistKindState) (cum : ℚ) (b : ℚ) :
    st.exported b ≤ ((ks.foldl (histStep resp) (st, cum)).1).exported b := by
  induction ks generalizing st cum with
  | nil => exact le_refl _
  | cons k rest ih =>
    simp only [List.foldl_cons]
    calc st.exported b ≤ ((histStep resp (st, cum) k).1).exported b :=
          histStep_exported_mono resp st cum k b
      _ ≤ _ := by
          rcases hs : histStep resp (st, cum) k with ⟨st', cum'⟩
          exact ih st' cum'

lemma updateHistKind_exported_mono (st : HistKindState) (resp : List (String × ℚ)) (b : ℚ) :
    st.exported b ≤ (updateHistKind st resp).exported b :=
  foldl_histStep_exported_mono resp (sortedLabels resp) st 0 b

end VplcCollector

namespace VplcCollector

lemma sorted_two (x y : ℚ) :
    sortedLabels [("0-1ms", x), ("1-2ms", y)] = ["0-1ms", "1-2ms"] := by
  have hlt : parseBucketUpperBoundMs "0-1ms" < parseBucketUpperBoundMs "1-2ms" := by
    rw [parse_01ms, parse_12ms]; norm_num
  simp [sortedLabels, List.insertionSort, List.orderedInsert, hlt]

/-- Claim C4 counterexample: with the fixed label set {"0-1ms", "1-2ms"}
and the nonnegative responses (10,0), (0,10), (10,0) in that order, the
final snapshot exports 20 at upper bound 1 but only 10 at upper bound 2 —
the exported counts are not non-decreasing in the bucket upper bound. -/
theorem c4_counterexample :
    (1 : ℚ) < 2 ∧
    (updateHistKind (updateHistKind (updateHistKind initHistKind
        [("0-1ms", 10), ("1-2ms", 0)]) [("0-1ms", 0), ("1-2ms", 10)])
        [("0-1ms", 10), ("1-2ms", 0)]).exported 1 = 20 ∧
    (updateHistKind (updateHistKind (updateHistKind initHistKind
        [("0-1ms", 10), ("1-2ms", 0)]) [("0-1ms", 0), ("1-2ms", 10)])
        [("0-1ms", 10), ("1-2ms", 0)]).exported 2 = 10 := by
  have hsf : (("1-2ms" == "0-1ms") : Bool) = false := by decide
  have hq21 : (((2 : ℚ) == (1 : ℚ)) : Bool) = false := beq_false_of_ne (by norm_num)
  have hq12 : (((1 : ℚ) == (2 : ℚ)) : Bool) = false := beq_false_of_ne (by norm_num)
  refine ⟨by norm_num, ?_, ?_⟩ <;>
    norm_num [updateHistKind, sorted_two, List.foldl_cons, List.foldl_nil, histStep,
      getPreviousBucketValue, initHistKind, parse_01ms, parse_12ms, Function.update,
      List.lookup_cons, hsf, hq21, hq12, beq_self_eq_true]

/-- Claim C4 (amended): for a fixed instance and histogram kind, each
bucket's exported count is non-decreasing over time (only positive deltas
are ever added); but the snapshot need not be non-decreasing in the bucket
upper bound once several responses have been processed — see the
counterexample. -/
theorem c4_hist_bucket_time_monotone_amended (st : HistState) (h : Histogram) (b : ℚ) :
    st.write.exported b ≤ (updateHistograms st h).write.exported b ∧
    st.cycle.exported b ≤ (updateHistograms st h).cycle.exported b :=
  ⟨updateHistKind_exported_mono _ _ b, updateHistKind_exported_mono _ _ b⟩

end VplcCollector

namespace VplcCollector

lemma lookup_getD_nonneg {resp : List (String × ℚ)} (hpos : ∀ p ∈ resp, 0 ≤ p.2) (k : String) :
    0 ≤ ((resp.lookup k).getD 0) := by
  induction resp with
  | nil => simp [List.lookup]
  | cons p rest ih =>
    rcases p with ⟨k0, v0⟩
    by_cases hbeq : (k == k0) = true
    · rw [List.lookup_cons, hbeq]
      exact hpos (k0, v0) (List.mem_cons_self _ _)
    · have hb2 : (k == k0) = false := by simpa using hbeq
      rw [List.lookup_cons, hb2]
      exact ih (fun q hq => hpos q (List.mem_cons_of_mem _ hq))

lemma mem_cumSeqAux_bound {resp : List (String × ℚ)} {ks : List String} :
    ∀ {cum b c : ℚ}, (b, c) ∈ cumSeqAux resp cum ks →
      b ∈ ks.map parseBucketUpperBoundMs := by
  induction ks with
  | nil => intro cum b c h; cases h
  | cons k ks' ih =>
    intro cum b c h
    simp only [cumSeqAux] at h
    rw [List.mem_cons] at h
    rcases h with h | h
    · rw [Prod.mk.injEq] at h
      rw [List.map_cons]
      exact h.1 ▸ List.mem_cons_self _ _
    · exact List.mem_cons_of_mem _ (ih h)

lemma foldl_histStep_exported_frame (resp : List (String × ℚ)) :
    ∀ (ks : List String) (st : HistKindState) (cum b : ℚ),
      b ∉ ks.map parseBucketUpperBoundMs →
      ((ks.foldl (histStep resp) (st, cum)).1).exported b = st.exported b := by
  intro ks
  induction ks with
  | nil => intro st cum b _; rfl
  | cons k ks' ih =>
    intro st cum b hb
    rw [List.map_cons, List.mem_cons] at hb
    push_neg at hb
    rw [List.foldl_cons]
    exact (ih (histStep resp (st, cum) k).1 (histStep resp (st, cum) k).2 b hb.2).trans
      (histStep_exported_frame resp st cum k b hb.1)

lemma foldl_histStep_cumSeq (resp : List (String × ℚ)) :
    ∀ (ks : List String), (ks.map parseBucketUpperBoundMs).Nodup →
    ∀ (st : HistKindState) (cum b c : ℚ), (b, c) ∈ cumSeqAux resp cum ks →
      ((ks.foldl (histStep resp) (st, cum)).1).exported b =
        st.exported b + max 0 (c - getPreviousBucketValue st.prevCum b) := by
  intro ks
  induction ks with
  | nil => intro _ st cum b c h; cases h
  | cons k ks' ih =>
    intro hnd st cum b c h
    rw [List.map_cons, List.nodup_cons] at hnd
    obtain ⟨hknotin, hndrest⟩ := hnd
    rw [List.foldl_cons]
    simp only [cumSeqAux] at h
    rw [List.mem_cons] at h
    rcases h with h | h
    · rw [Prod.mk.injEq] at h
      obtain ⟨hb, hc⟩ := h
      subst hb; subst hc
      exact (foldl_histStep_exported_frame resp ks' (histStep resp (st, cum) k).1
          (histStep resp (st, cum) k).2 _ hknotin).trans
        (histStep_exported_at resp st cum k)
    · have hbmem : b ∈ ks'.map parseBucketUpperBoundMs := mem_cumSeqAux_bound h
      have hne : b ≠ parseBucketUpperBoundMs k := fun he => hknotin (he ▸ hbmem)
      have hmem2 : (b, c) ∈ cumSeqAux resp (histStep resp (st, cum) k).2 ks' := by
        rw [histStep_cum]
        exact h
      have hstep := ih hndrest (histStep resp (st, cum) k).1 (histStep resp (st, cum) k).2 b c hmem2
      rw [hstep, histStep_exported_frame resp st cum k b hne,
        histStep_prev_frame resp st cum k b hne]

end VplcCollector

namespace VplcCollector

lemma foldl_histStep_first (resp : List (String × ℚ)) (hpos : ∀ p ∈ resp, 0 ≤ p.2) :
    ∀ (ks : List String) (st : HistKindState) (cum : ℚ),
      (∀ b, st.exported b = getPreviousBucketValue st.prevCum b) →
      (∀ b, getPreviousBucketValue st.prevCum b ≤ cum) →
      ∀ b, ((ks.foldl (histStep resp) (st, cum)).1).exported b =
        getPreviousBucketValue ((ks.foldl (histStep resp) (st, cum)).1).prevCum b := by
  intro ks
  induction ks with
  | nil => intro st cum hinv _ b; exact hinv b
  | cons k ks' ih =>
    intro st cum hinv hle b
    have hcnt : 0 ≤ ((resp.lookup k).getD 0) := lookup_getD_nonneg hpos k
    rw [List.foldl_cons]
    apply ih (histStep resp (st, cum) k).1 (histStep resp (st, cum) k).2
    · intro b'
      by_cases hb' : b' = parseBucketUpperBoundMs k
      · subst hb'
        rw [histStep_exported_at, histStep_prev_at, hinv (parseBucketUpperBoundMs k),
          max_eq_right (by linarith [hle (parseBucketUpperBoundMs k)])]
        ring
      · rw [histStep_exported_frame resp st cum k b' hb',
          histStep_prev_frame resp st cum k b' hb']
        exact hinv b'
    · intro b'
      rw [histStep_cum]
      by_cases hb' : b' = parseBucketUpperBoundMs k
      · subst hb'
        rw [histStep_prev_at]
      · rw [histStep_prev_frame resp st cum k b' hb']
        exact le_trans (hle b') (by linarith)

/-- Claim C10: the stored previous cumulative value of a bucket defaults
to 0 (a missing key in the previous-bucket map), so on the first histogram
response ever processed for an (instance, kind) pair — starting from the
initial state — the exported bucket counter at every boundary equals the
stored cumulative count of the response at that boundary, i.e. the full
cumulative count is exported as the initial value: unlike the policy the
specification states for scalar counters, no zero-increment-on-first-
observation baseline is applied. -/
theorem c10_hist_first_observation_full_cumulative :
    (∀ b : ℚ, getPreviousBucketValue initHistKind.prevCum b = 0) ∧
    (∀ resp : List (String × ℚ), (∀ p ∈ resp, 0 ≤ p.2) → ∀ b : ℚ,
      (updateHistKind initHistKind resp).exported b =
        getPreviousBucketValue (updateHistKind initHistKind resp).prevCum b) := by
  refine ⟨fun b => rfl, fun resp hpos b => ?_⟩
  exact foldl_histStep_first resp hpos (sortedLabels resp) initHistKind 0
    (fun _ => rfl) (fun _ => le_of_eq rfl) b

/-- Witness for C10: for the concrete first response
{"0-1ms": 3, "1-5ms": 2, "5+ms": 1}, the exported counter at boundary 1
equals the stored cumulative value there. -/
theorem c10_witness :
    (updateHistKind initHistKind [("0-1ms", 3), ("1-5ms", 2), ("5+ms", 1)]).exported 1 =
      getPreviousBucketValue
        (updateHistKind initHistKind [("0-1ms", 3), ("1-5ms", 2), ("5+ms", 1)]).prevCum 1 :=
  c10_hist_first_observation_full_cumulative.2 _
    (by intro p hp; fin_cases hp <;> norm_num) 1

lemma sorted_three (x y z : ℚ) :
    sortedLabels [("0-1ms", x), ("1-5ms", y), ("5+ms", z)] = ["0-1ms", "1-5ms", "5+ms"] := by
  have h15 : parseBucketUpperBoundMs "1-5ms" < parseBucketUpperBoundMs "5+ms" := by
    rw [parse_15ms, parse_5plus]; norm_num [sentinelBucketBound]
  have h01 : parseBucketUpperBoundMs "0-1ms" < parseBucketUpperBoundMs "1-5ms" := by
    rw [parse_01ms, parse_15ms]; norm_num
  simp [sortedLabels, List.insertionSort, List.orderedInsert, h15, h01]

lemma cumSeq_example :
    cumSeq [("0-1ms", 3), ("1-5ms", 2), ("5+ms", 1)] =
      [(1, 3), (5, 5), (sentinelBucketBound, 6)] := by
  have l1 : List.lookup "0-1ms" [("0-1ms", (3 : ℚ)), ("1-5ms", 2), ("5+ms", 1)] = some 3 := rfl
  have l2 : List.lookup "1-5ms" [("0-1ms", (3 : ℚ)), ("1-5ms", 2), ("5+ms", 1)] = some 2 := rfl
  have l3 : List.lookup "5+ms" [("0-1ms", (3 : ℚ)), ("1-5ms", 2), ("5+ms", 1)] = some 1 := rfl
  rw [cumSeq, sorted_three]
  simp [cumSeqAux, l1, l2, l3, parse_01ms, parse_15ms, parse_5plus]
  norm_num

lemma sorted_three_bounds_nodup :
    ((["0-1ms", "1-5ms", "5+ms"] : List String).map parseBucketUpperBoundMs).Nodup := by
  rw [List.map_cons, List.map_cons, List.map_cons, List.map_nil,
    parse_01ms, parse_15ms, parse_5plus]
  norm_num [sentinelBucketBound]

lemma map_fst_cumSeqAux (resp : List (String × ℚ)) :
    ∀ (ks : List String) (cum : ℚ),
      (cumSeqAux resp cum ks).map Prod.fst = ks.map parseBucketUpperBoundMs
  | [], _ => rfl
  | k :: ks, cum => by
    simp only [cumSeqAux, List.map_cons]
    rw [map_fst_cumSeqAux resp ks]

lemma orderedInsert_parse_sorted (a : String) :
    ∀ l : List String, List.Sorted (· ≤ ·) (l.map parseBucketUpperBoundMs) →
      List.Sorted (· ≤ ·)
        ((List.orderedInsert (fun x y => parseBucketUpperBoundMs x < parseBucketUpperBoundMs y)
          a l).map parseBucketUpperBoundMs)
  | [], _ => by simp
  | b :: l, hs => by
    rw [List.orderedInsert]
    by_cases hab : parseBucketUpperBoundMs a < parseBucketUpperBoundMs b
    · rw [if_pos hab, List.map_cons]
      rw [List.sorted_cons]
      refine ⟨?_, hs⟩
      intro x hx
      rw [List.map_cons, List.mem_cons] at hx
      rw [List.map_cons, List.sorted_cons] at hs
      rcases hx with rfl | hx
      · exact le_of_lt hab
      · exact le_trans (le_of_lt hab) (hs.1 x hx)
    · rw [if_neg hab, List.map_cons, List.sorted_cons]
      rw [List.map_cons, List.sorted_cons] at hs
      obtain ⟨hbl, hsl⟩ := hs
      refine ⟨?_, orderedInsert_parse_sorted a l hsl⟩
      intro x hx
      rw [List.mem_map] at hx
      obtain ⟨y, hy, rfl⟩ := hx
      rw [List.mem_orderedInsert] at hy
      rcases hy with rfl | hy
      · exact le_of_not_lt hab
      · exact hbl _ (List.mem_map_of_mem _ hy)

lemma insertionSort_parse_sorted :
    ∀ l : List String,
      List.Sorted (· ≤ ·)
        ((List.insertionSort (fun x y => parseBucketUpperBoundMs x < parseBucketUpperBoundMs y)
          l).map parseBucketUpperBoundMs)
  | [] => by simp
  | a :: l => by
    rw [List.insertionSort]
    exact orderedInsert_parse_sorted a _ (insertionSort_parse_sorted l)

lemma cumSeq_bounds_sorted (resp : List (String × ℚ)) :
    List.Sorted (· ≤ ·) ((cumSeq resp).map Prod.fst) := by
  rw [cumSeq, map_fst_cumSeqAux]
  exact insertionSort_parse_sorted (resp.map Prod.fst)

lemma sortedLabels_bounds_nodup {resp : List (String × ℚ)}
    (h : ((resp.map Prod.fst).map parseBucketUpperBoundMs).Nodup) :
    ((sortedLabels resp).map parseBucketUpperBoundMs).Nodup := by
  have hp : List.Perm (sortedLabels resp) (resp.map Prod.fst) :=
    List.perm_insertionSort _ _
  exact ((hp.map parseBucketUpperBoundMs).nodup_iff).mpr h

/-- Claim C3: for every histogram response map and both histogram kinds,
`updateHistograms` sorts the reported labels by ascending parsed upper
bound and forms the running sum of counts in that order as the cumulative
count at each boundary (the derived sequence `cumSeq` is non-decreasing in
the boundary), and — whenever the response's parsed bounds are pairwise
distinct, as they are for genuine device responses — each boundary's
exported counter receives from any prior state exactly the positive part
of the delta of that cumulative count against the previously stored
cumulative value for the same boundary; in particular the input
{"0-1ms": 3, "1-5ms": 2, "5+ms": 1} yields the cumulative sequence
(1 -> 3, 5 -> 5, sentinel -> 6) ordered by boundary. -/
theorem c3_histogram_cumulative_conversion :
    (∀ resp : List (String × ℚ), List.Sorted (· ≤ ·) ((cumSeq resp).map Prod.fst)) ∧
    (∀ (st : HistState) (h : Histogram),
      ((h.writeDurationHistogram.map Prod.fst).map parseBucketUpperBoundMs).Nodup →
      ∀ b c : ℚ, (b, c) ∈ cumSeq h.writeDurationHistogram →
        (updateHistograms st h).write.exported b =
          st.write.exported b + max 0 (c - getPreviousBucketValue st.write.prevCum b)) ∧
    (∀ (st : HistState) (h : Histogram),
      ((h.cycleExtensionDurationHistogram.map Prod.fst).map parseBucketUpperBoundMs).Nodup →
      ∀ b c : ℚ, (b, c) ∈ cumSeq h.cycleExtensionDurationHistogram →
        (updateHistograms st h).cycle.exported b =
          st.cycle.exported b + max 0 (c - getPreviousBucketValue st.cycle.prevCum b)) ∧
    cumSeq [("0-1ms", 3), ("1-5ms", 2), ("5+ms", 1)] =
      [(1, 3), (5, 5), (sentinelBucketBound, 6)] := by
  refine ⟨cumSeq_bounds_sorted, ?_, ?_, cumSeq_example⟩
  · intro st h hnd b c hmem
    exact foldl_histStep_cumSeq _ (sortedLabels h.writeDurationHistogram)
      (sortedLabels_bounds_nodup hnd) st.write 0 b c hmem
  · intro st h hnd b c hmem
    exact foldl_histStep_cumSeq _ (sortedLabels h.cycleExtensionDurationHistogram)
      (sortedLabels_bounds_nodup hnd) st.cycle 0 b c hmem

/-- Witness for C3: the example response has pairwise distinct parsed
bounds and (1, 3) is in its derived cumulative sequence, so from the
initial state the exported write-duration counter at boundary 1 receives
exactly max(0, 3 - 0). -/
theorem c3_witness :
    ((([("0-1ms", (3 : ℚ)), ("1-5ms", 2), ("5+ms", 1)].map Prod.fst).map
        parseBucketUpperBoundMs).Nodup ∧
      (1, 3) ∈ cumSeq [("0-1ms", (3 : ℚ)), ("1-5ms", 2), ("5+ms", 1)]) ∧
    (updateHistograms initHist
        ⟨0, [], [("0-1ms", 3), ("1-5ms", 2), ("5+ms", 1)]⟩).write.exported 1 =
      initHist.write.exported 1 +
        max 0 (3 - getPreviousBucketValue initHist.write.prevCum 1) :=
  ⟨⟨sorted_three_bounds_nodup, by rw [cumSeq_example]; exact List.mem_cons_self _ _⟩,
   c3_histogram_cumulative_conversion.2.1 initHist
     ⟨0, [], [("0-1ms", 3), ("1-5ms", 2), ("5+ms", 1)]⟩
     sorted_three_bounds_nodup 1 3 (by rw [cumSeq_example]; exact List.mem_cons_self _ _)⟩

end VplcCollector

namespace VplcCollector

lemma updateCRBMetrics_skip (st : MetricsState) (doc : List (String × GoVal)) (inst : String)
    (hmal : ∀ perf, doc.lookup "performanceMetrics" ≠ some (.vMap perf)) :
    updateCRBMetrics st doc inst = st := by
  unfold updateCRBMetrics
  rcases hl : doc.lookup "performanceMetrics" with _ | v
  · rfl
  · cases v with
    | vMap perf => exact absurd hl (hmal perf)
    | vFloat q => rfl
    | vInt n => rfl
    | vInt64 n => rfl
    | vNum f => rfl
    | vStr s => rfl
    | vBool b => rfl
    | vNull => rfl
    | vArr xs => rfl

/-- Claim C6: when the scalar-metrics document of a cycle is malformed
(unparsable JSON, or parsed without a `performanceMetrics` map), all
previously exported counter and gauge values are left exactly unchanged,
the session is not invalidated (the authenticated flag and token are
kept), and the histogram update of the same cycle is applied exactly as it
would have been; symmetrically, when the histogram document is unparsable
the histogram state is unchanged and the scalar-metrics update of the same
cycle still proceeds. -/
theorem c6_malformed_document_frame :
    (∀ (env : CycleEnv) (inst : String) (st : CollectorState) (histDoc : Option Histogram),
      st.authenticated = true → st.token ≠ "" →
      env.histFetch = .ok histDoc → crbFetchMalformed env.crbFetch →
      (runCycle env inst st).metrics = st.metrics ∧
      (runCycle env inst st).authenticated = true ∧
      (runCycle env inst st).token = st.token ∧
      (runCycle env inst st).hist = (applyHistDoc st histDoc).hist) ∧
    (∀ (env : CycleEnv) (inst : String) (st : CollectorState) (doc : List (String × GoVal)),
      st.authenticated = true → st.token ≠ "" →
      env.histFetch = .ok none → env.crbFetch = .ok (some doc) →
      (runCycle env inst st).hist = st.hist ∧
      (runCycle env inst st).metrics = updateCRBMetrics st.metrics doc inst) := by
  constructor
  · intro env inst st histDoc hauth htok hhist hmal
    have hcond : ¬(st.authenticated = false ∨ st.token = "") := by
      rintro (h | h)
      · rw [hauth] at h; cases h
      · exact htok h
    unfold runCycle
    rw [if_neg hcond]
    unfold runFetches
    rw [hhist]
    rcases hcrb : env.crbFetch with _ | crbDoc
    · rw [hcrb] at hmal
      exact absurd hmal (by simp [crbFetchMalformed])
    · rw [hcrb] at hmal
      rcases crbDoc with _ | doc
      · exact ⟨by cases histDoc <;> rfl, by cases histDoc <;> exact hauth,
          by cases histDoc <;> rfl, by cases histDoc <;> rfl⟩
      · have hmal2 : ∀ perf, doc.lookup "performanceMetrics" ≠ some (.vMap perf) := hmal
        refine ⟨?_, ?_, ?_, ?_⟩
        · show (updateCRBMetrics (applyHistDoc st histDoc).metrics doc inst) = st.metrics
          rw [updateCRBMetrics_skip _ doc inst hmal2]
          cases histDoc <;> rfl
        · show (applyHistDoc st histDoc).authenticated = true
          cases histDoc <;> exact hauth
        · show (applyHistDoc st histDoc).token = st.token
          cases histDoc <;> rfl
        · show ({ applyHistDoc st histDoc with
              metrics := updateCRBMetrics (applyHistDoc st histDoc).metrics doc inst }).hist =
            (applyHistDoc st histDoc).hist
          rfl
  · intro env inst st doc hauth htok hhist hcrb
    have hcond : ¬(st.authenticated = false ∨ st.token = "") := by
      rintro (h | h)
      · rw [hauth] at h; cases h
      · exact htok h
    unfold runCycle
    rw [if_neg hcond]
    unfold runFetches
    rw [hhist, hcrb]
    exact ⟨rfl, rfl⟩

/-- Witness for C6: a cycle starting authenticated whose two fetches both
return unparsable bodies leaves the metric state and session untouched. -/
theorem c6_witness :
    (runCycle ⟨none, .ok none, .ok none⟩ "vplc1"
      ⟨true, "tok", initMetrics, initHist⟩).metrics = initMetrics ∧
    (runCycle ⟨none, .ok none, .ok none⟩ "vplc1"
      ⟨true, "tok", initMetrics, initHist⟩).authenticated = true :=
  ⟨(c6_malformed_document_frame.1 ⟨none, .ok none, .ok none⟩ "vplc1"
      ⟨true, "tok", initMetrics, initHist⟩ none rfl (by decide) rfl True.intro).1,
   (c6_malformed_document_frame.1 ⟨none, .ok none, .ok none⟩ "vplc1"
      ⟨true, "tok", initMetrics, initHist⟩ none rfl (by decide) rfl True.intro).2.1⟩

end VplcCollector

namespace VplcCollector

/-- Claim C8: a tick that fires while the previous cycle of the same
instance is still in flight (`running = true`, the CAS fails) is a no-op:
it performs no authentication and no fetch, leaves the session, counter,
gauge and histogram state exactly unchanged, and is dropped rather than
queued (the resulting loop state is identical, so nothing is pending); and
along every reachable execution of the loop at most one cycle is in flight
at any time — two fetch cycles for the same instance never run
concurrently. -/
theorem c8_overlap_guard :
    (∀ s : LoopState, s.running = true → onTick s = s) ∧
    (∀ (inst : String) (c : CollectorState) (s : LoopState),
      LoopReachable inst c s → s.inflight ≤ 1 ∧ (s.running = false → s.inflight = 0)) := by
  constructor
  · intro s h
    unfold onTick
    rw [if_pos h]
  · intro inst c s h
    unfold LoopReachable at h
    induction h with
    | refl => exact ⟨Nat.zero_le 1, fun _ => rfl⟩
    | @tail sb sc _ hstep ih =>
      rcases hstep with h1 | ⟨env, hpos, h2⟩
      · subst h1
        unfold onTick
        by_cases hr : sb.running = true
        · rw [if_pos hr]
          exact ih
        · rw [if_neg hr]
          have hz : sb.inflight = 0 := ih.2 (by simpa using hr)
          constructor
          · simp [hz]
          · intro hcontra
            simp at hcontra
      · subst h2
        unfold onFinish
        constructor
        · exact le_trans (Nat.sub_le _ _) ih.1
        · intro _
          have h1 := ih.1
          dsimp only
          omega

/-- Witness for C8: a tick arriving with a cycle in flight is the
identity on the whole loop state, and the initial state (reachable by the
empty execution) has no cycle in flight. -/
theorem c8_witness :
    onTick ⟨true, 1, initCollector⟩ = ⟨true, 1, initCollector⟩ ∧
    (loopInit initCollector).inflight ≤ 1 :=
  ⟨c8_overlap_guard.1 ⟨true, 1, initCollector⟩ rfl,
   (c8_overlap_guard.2 "vplc1" initCollector (loopInit initCollector)
     Relation.ReflTransGen.refl).1⟩

end VplcCollector
